import Mathlib

/-!
Verification of `youtube-playlist-info` (src/main.py).

The program is a linear pipeline: paginated playlist fetch, batch detail
fetch, positional assembly of items, optional total-duration row, and
rendering to Markdown or CSV.  Durations are `datetime.timedelta` values
built from whole seconds; we embed them as `Nat` total seconds (timedelta
normalises non-negative second-granularity values, so this is lossless).

Strings are manipulated through their character lists (`String.data`).
-/

set_option maxRecDepth 4096

namespace YtPlaylistInfo

/-- Decimal value of a digit list, as Python's `int()` computes it on a
string of digits (left fold, most significant digit first). -/
def digitsVal (l : List Char) : Nat :=
  l.foldl (fun a c => 10 * a + (c.toNat - 48)) 0

/-- One attempted regex match of the pattern `(\d+)X` (digits followed by
the literal designator `c`) anchored at the head of `l`, as CPython's
backtracking engine behaves for this pattern: `\d+` greedily takes the
maximal digit run; since the designators `H`/`M`/`S` are not digits,
backtracking to a shorter run can never succeed, so the match succeeds
exactly when the maximal run is non-empty and the character after it is
`c`.  Returns group(1) converted by `int`. -/
def matchNumSuffixAt (c : Char) (l : List Char) : Option Nat :=
  match l.takeWhile Char.isDigit, l.dropWhile Char.isDigit with
  | [], _ => none
  | d, c2 :: _ => if c2 = c then some (digitsVal d) else none
  | _, [] => none

/-- `re.search` for the pattern `(\d+)X` with designator `c`: try a match
at every start position, left to right, returning the leftmost success
(`hours_pattern.search` / `minutes_pattern.search` /
`seconds_pattern.search` in src/main.py, lines 16-18 and 109-111). -/
def searchNumSuffix (c : Char) : List Char → Option Nat
  | [] => none
  | x :: xs =>
    match matchNumSuffixAt c (x :: xs) with
    | some v => some v
    | none => searchNumSuffix c xs

/-- Core of `_extract_duration` (src/main.py lines 106-117): search the
three component patterns independently, default each absent component to
0, and build `timedelta(hours=h, minutes=m, seconds=s)`, embedded as its
total number of seconds. -/
def parse_duration_chars (duration : List Char) : Nat :=
  let hours := (searchNumSuffix 'H' duration).getD 0
  let minutes := (searchNumSuffix 'M' duration).getD 0
  let seconds := (searchNumSuffix 'S' duration).getD 0
  3600 * hours + 60 * minutes + seconds

/-- The duration parser on strings (the spec's `DurationParser`). -/
def parse_duration (s : String) : Nat :=
  parse_duration_chars s.data

/-! ### The simplified duration grammar -/

/-- One optional component of the simplified grammar: absent, or a digit
string followed by its designator `c`. -/
def componentStr : Option (List Char) → Char → List Char
  | none, _ => []
  | some d, c => d ++ [c]

/-- A string of the simplified grammar: optional hours, minutes and
seconds components, in that order. -/
def grammarStr (oh om os : Option (List Char)) : List Char :=
  componentStr oh 'H' ++ componentStr om 'M' ++ componentStr os 'S'

/-- Value contributed by an optional component: 0 when absent. -/
def componentVal : Option (List Char) → Nat
  | none => 0
  | some d => digitsVal d

/-- Well-formedness of an optional component: when present, its digit
string is non-empty and all digits. -/
def DigitBlock : Option (List Char) → Prop
  | none => True
  | some d => d ≠ [] ∧ ∀ a ∈ d, a.isDigit = true

/-! ### Data model -/

/-- The sole domain entity (src/main.py lines 9-13); `timedelta` durations
are embedded as `Nat` total seconds. -/
structure Item where
  title : String
  url : String
  duration : Nat
deriving DecidableEq, Repr

/-- `snippet` part of a detail record returned by the videos endpoint. -/
structure Snippet where
  title : String
deriving DecidableEq, Repr

/-- `contentDetails` part of a detail record: the raw duration string. -/
structure ContentDetails where
  duration : String
deriving DecidableEq, Repr

/-- A detail record of the videos endpoint (the dict `_extract_duration`
and `_extract_title` read from). -/
structure Detail where
  snippet : Snippet
  contentDetails : ContentDetails
deriving DecidableEq, Repr

/-- `_extract_duration` (src/main.py lines 106-117). -/
def _extract_duration (item : Detail) : Nat :=
  parse_duration_chars item.contentDetails.duration.data

/-- `_extract_title` (src/main.py lines 120-121). -/
def _extract_title (item : Detail) : String :=
  item.snippet.title

/-- `_create_link` (src/main.py lines 124-125). -/
def _create_link (video_id : String) : String :=
  "https://www.youtube.com/watch?v=" ++ video_id

/-- `create_item` (src/main.py lines 132-137). -/
def create_item (item : Detail) (video_id : String) : Item :=
  { title := _extract_title item
    url := _create_link video_id
    duration := _extract_duration item }

/-- `get_total_duration` (src/main.py lines 128-129): Python's
`sum(..., timedelta())` is a left fold of `+` starting from the zero
duration. -/
def get_total_duration (items : List Item) : Nat :=
  (items.map Item.duration).foldl (· + ·) 0

/-- The assembly step of `main` (src/main.py lines 156-158):
`[create_item(item, video_id) for item, video_id in zip(...)]`. -/
def assemble (video_details : List Detail) (video_ids : List String) : List Item :=
  (video_details.zip video_ids).map (fun p => create_item p.1 p.2)

/-- The `--include-total-duration` branch of `main` (src/main.py lines
160-167): append one synthetic row whose duration is the total of the
items already present. -/
def append_total_row (items : List Item) : List Item :=
  items ++ [{ title := "Total Duration", url := "", duration := get_total_duration items }]

/-! ### Rendering -/

/-- The decimal digit character for a value below 10. -/
def digitChar (n : Nat) : Char :=
  Char.ofNat (48 + n)

/-- Decimal rendering of a natural number with explicit fuel (structural
recursion so that concrete renderings evaluate); any `fuel > n` is
enough, and `toDecimal` supplies `n + 1`. -/
def toDecimalAux : Nat → Nat → List Char
  | 0, _ => []
  | fuel + 1, n =>
    if n < 10 then [digitChar n]
    else toDecimalAux fuel (n / 10) ++ [digitChar (n % 10)]

/-- Decimal rendering of a natural number, as Python's `%d` / `str`. -/
def toDecimal (n : Nat) : List Char :=
  toDecimalAux (n + 1) n

/-- Python's `%02d`: pad to two digits with a leading zero. -/
def twoDigit (n : Nat) : List Char :=
  if n < 10 then '0' :: toDecimal n else toDecimal n

/-- `str(timedelta)` for a non-negative whole-second value: `H:MM:SS`,
preceded by `D day(s), ` when the value reaches one day (CPython
`timedelta.__str__`: hours without padding, minutes and seconds padded
with `%02d`, day prefix with plural handling). -/
def strDelta_chars (total : Nat) : List Char :=
  let d := total / 86400
  let h := total % 86400 / 3600
  let m := total % 3600 / 60
  let s := total % 60
  let hms := toDecimal h ++ ':' :: (twoDigit m ++ ':' :: twoDigit s)
  if d = 0 then hms
  else toDecimal d ++ (if d = 1 then " day, " else " days, ").data ++ hms

/-- `str(timedelta)` as a `String` (what `f"... | {item.duration} | ..."`
interpolates). -/
def strDelta (total : Nat) : String :=
  ⟨strDelta_chars total⟩

/-- One Markdown row of `create_markdown_table` (src/main.py line 145):
`f"| [{item.title}]({item.url}) | {item.duration} |\n"`. -/
def mdRow (item : Item) : String :=
  "| [" ++ item.title ++ "](" ++ item.url ++ ") | " ++ strDelta item.duration ++ " |\n"

/-- `create_markdown_table` (src/main.py lines 140-147): two header lines,
then one row appended per item, in order. -/
def create_markdown_table (items : List Item) : String :=
  items.foldl (fun table item => table ++ mdRow item) "| Title | Duration |\n| :--- | :---: |\n"

/-- One CSV line of the csv branch of `main` (src/main.py line 174):
`f'"{item.title}",{item.url},{item.duration}'`. -/
def csvLine (item : Item) : String :=
  "\"" ++ item.title ++ "\"," ++ item.url ++ "," ++ strDelta item.duration

/-- The csv branch of `main` (src/main.py lines 171-174): the printed
lines, header first, then one line per item in order. -/
def csv_lines (items : List Item) : List String :=
  "title,url,duration" :: items.map csvLine

/-! ### Pagination (`get_video_ids`) -/

/-- `contentDetails` of a playlistItems response entry. -/
structure PlaylistItemContentDetails where
  videoId : String
deriving DecidableEq, Repr

/-- One entry of a playlistItems response page. -/
structure PlaylistItem where
  contentDetails : PlaylistItemContentDetails
deriving DecidableEq, Repr

/-- One response of the playlistItems endpoint: the items of the page and
the optional continuation token. -/
structure Page where
  items : List PlaylistItem
  nextPageToken : Option String
deriving DecidableEq, Repr

/-- The video ids contributed by one page (src/main.py line 80):
`[item["contentDetails"]["videoId"] for item in items]`. -/
def pageVideoIds (p : Page) : List String :=
  p.items.map (fun item => item.contentDetails.videoId)

/-- Python truthiness of the token used by `if not nextPageToken: break`
(src/main.py lines 82-85): a missing token and an empty-string token are
both falsy. -/
def tokenFalsy : Option String → Bool
  | none => true
  | some t => t.isEmpty

/-- The `while True` loop of `get_video_ids` (src/main.py lines 65-87).
The remote API is abstracted as a function from the supplied `pageToken`
to the response page; explicit fuel bounds the number of iterations (the
Python loop is unbounded, so running out of fuel returns `none`); the
number of requests actually performed is returned alongside the
accumulated video ids, instrumenting the loop for the resource claim. -/
def get_video_ids_loop (api : Option String → Page) :
    Nat → Option String → List String → Option (List String × Nat)
  | 0, _, _ => none
  | fuel + 1, tok, acc =>
    let pl_response := api tok
    let acc2 := acc ++ pageVideoIds pl_response
    let nextPageToken := pl_response.nextPageToken
    if tokenFalsy nextPageToken then
      some (acc2, 1)
    else
      match get_video_ids_loop api fuel nextPageToken acc2 with
      | none => none
      | some (ids, n) => some (ids, n + 1)

/-- `get_video_ids` (src/main.py lines 65-87): start from
`nextPageToken = None` and an empty accumulator. -/
def get_video_ids (api : Option String → Page) (fuel : Nat) :
    Option (List String × Nat) :=
  get_video_ids_loop api fuel none []

/-- The environment assumption of the pagination claim: starting from a
given request token, the API delivers exactly this finite sequence of
pages, each page but the last carrying a truthy continuation token which
the next request supplies, and the last page carrying none. -/
inductive PageChain (api : Option String → Page) : Option String → List Page → Prop where
  | last (tok : Option String) (h : (api tok).nextPageToken = none) :
      PageChain api tok [api tok]
  | step (tok : Option String) (t : String) (rest : List Page)
      (h : (api tok).nextPageToken = some t) (ht : t ≠ "")
      (hrest : PageChain api (some t) rest) :
      PageChain api tok (api tok :: rest)

/-- A concrete two-page API environment: the initial request yields
`v1, v2` with continuation token `tok2`; the request with `tok2` yields
`v3` and no token. -/
def twoPageApi : Option String → Page
  | none => { items := [⟨⟨"v1"⟩⟩, ⟨⟨"v2"⟩⟩], nextPageToken := some "tok2" }
  | some t =>
    if t = "tok2" then { items := [⟨⟨"v3"⟩⟩], nextPageToken := none }
    else { items := [], nextPageToken := none }

/-! ### The spec's round-trip re-parser -/

/-- Read a non-empty leading digit run: its value and the rest of the
input. -/
def readNum (l : List Char) : Option (Nat × List Char) :=
  match l.takeWhile Char.isDigit, l.dropWhile Char.isDigit with
  | [], _ => none
  | d, r => some (digitsVal d, r)

/-- Expect a literal colon and return what follows it. -/
def expectColon : List Char → Option (List Char)
  | ':' :: r => some r
  | _ => none

/-- Modelled from the spec: the re-parse direction of the §8 round-trip
property, reading a rendered duration field back in the fixed `H:MM:SS`
format (digits, colon, digits, colon, digits, nothing else); no such
re-parser exists in src/main.py, so this definition follows the spec's
words. -/
def parseHMMSS_chars (l : List Char) : Option Nat :=
  (readNum l).bind fun p1 =>
    (expectColon p1.2).bind fun r1 =>
      (readNum r1).bind fun p2 =>
        (expectColon p2.2).bind fun r2 =>
          (readNum r2).bind fun p3 =>
            if p3.2 = [] then some (3600 * p1.1 + 60 * p2.1 + p3.1) else none

/-- The re-parser on strings. -/
def parseHMMSS (s : String) : Option Nat :=
  parseHMMSS_chars s.data

/-! ### Concrete end-to-end scenario of §8 -/

/-- The three detail records of the spec's end-to-end scenario. -/
def scenarioDetails : List Detail :=
  [⟨⟨"T1"⟩, ⟨"PT1H"⟩⟩, ⟨⟨"T2"⟩, ⟨"PT30M"⟩⟩, ⟨⟨"T3"⟩, ⟨"PT45S"⟩⟩]

/-- The three video ids of the spec's end-to-end scenario. -/
def scenarioIds : List String :=
  ["v1", "v2", "v3"]

/-- The assembled items of the spec's end-to-end scenario. -/
def scenarioItems : List Item :=
  assemble scenarioDetails scenarioIds

/-! ### Lemmas about the leftmost-match search -/

theorem takeWhile_block_append (p : Char → Bool) (d : List Char)
    (hd : ∀ a ∈ d, p a = true) (ch : Char) (hch : p ch = false) (t : List Char) :
    (d ++ ch :: t).takeWhile p = d := by
  induction d with
  | nil => simp [List.takeWhile, hch]
  | cons x xs ih =>
    have hx : p x = true := hd x (by simp)
    simp only [List.cons_append, List.takeWhile_cons, hx, if_true]
    rw [ih (fun a ha => hd a (by simp [ha]))]

theorem dropWhile_block_append (p : Char → Bool) (d : List Char)
    (hd : ∀ a ∈ d, p a = true) (ch : Char) (hch : p ch = false) (t : List Char) :
    (d ++ ch :: t).dropWhile p = ch :: t := by
  induction d with
  | nil => simp [List.dropWhile, hch]
  | cons x xs ih =>
    have hx : p x = true := hd x (by simp)
    simp only [List.cons_append, List.dropWhile_cons, hx, if_true]
    exact ih (fun a ha => hd a (by simp [ha]))

theorem searchNumSuffix_cons (c x : Char) (xs : List Char) :
    searchNumSuffix c (x :: xs) =
      match matchNumSuffixAt c (x :: xs) with
      | some v => some v
      | none => searchNumSuffix c xs := rfl

theorem searchNumSuffix_cons_of_none (c x : Char) (xs : List Char)
    (h : matchNumSuffixAt c (x :: xs) = none) :
    searchNumSuffix c (x :: xs) = searchNumSuffix c xs := by
  rw [searchNumSuffix_cons, h]

theorem searchNumSuffix_cons_of_some (c x : Char) (xs : List Char) (v : Nat)
    (h : matchNumSuffixAt c (x :: xs) = some v) :
    searchNumSuffix c (x :: xs) = some v := by
  rw [searchNumSuffix_cons, h]

theorem matchNumSuffixAt_none_of_not_mem (c : Char) (l : List Char)
    (h : c ∉ l) : matchNumSuffixAt c l = none := by
  unfold matchNumSuffixAt
  rcases htake : l.takeWhile Char.isDigit with _ | ⟨x, xs⟩
  · simp
  · rcases hdrop : l.dropWhile Char.isDigit with _ | ⟨c2, r⟩
    · simp
    · have hc2 : c2 ∈ l.takeWhile Char.isDigit ++ l.dropWhile Char.isDigit := by
        rw [hdrop]; simp
      rw [List.takeWhile_append_dropWhile] at hc2
      have : c2 ≠ c := fun he => h (he ▸ hc2)
      simp [this]

theorem searchNumSuffix_none_of_not_mem (c : Char) (l : List Char)
    (h : c ∉ l) : searchNumSuffix c l = none := by
  induction l with
  | nil => rfl
  | cons x xs ih =>
    rw [searchNumSuffix_cons_of_none c x xs
      (matchNumSuffixAt_none_of_not_mem c (x :: xs) h)]
    exact ih (fun hm => h (by simp [hm]))

theorem searchNumSuffix_cons_not_digit (c ch : Char) (t : List Char)
    (hch : ch.isDigit = false) :
    searchNumSuffix c (ch :: t) = searchNumSuffix c t := by
  apply searchNumSuffix_cons_of_none
  unfold matchNumSuffixAt
  simp [List.takeWhile_cons, hch]

/-- An all-digits block followed by a designator other than `c` is skipped
entirely by the search for `(\d+)c`. -/
theorem searchNumSuffix_skip_block (c : Char) (d : List Char)
    (hd : ∀ a ∈ d, a.isDigit = true) (ch : Char) (hch : ch.isDigit = false)
    (hne : ch ≠ c) (t : List Char) :
    searchNumSuffix c (d ++ ch :: t) = searchNumSuffix c t := by
  induction d with
  | nil =>
    simpa using searchNumSuffix_cons_not_digit c ch t hch
  | cons x xs ih =>
    have hd' : ∀ a ∈ xs, a.isDigit = true := fun a ha => hd a (by simp [ha])
    have htake := takeWhile_block_append Char.isDigit (x :: xs) hd ch hch t
    have hdrop := dropWhile_block_append Char.isDigit (x :: xs) hd ch hch t
    rw [List.cons_append] at htake hdrop ⊢
    rw [searchNumSuffix_cons_of_none]
    · exact ih hd'
    · unfold matchNumSuffixAt
      rw [htake, hdrop]
      simp [hne]

/-- A non-empty all-digits block at the head, immediately followed by the
designator `c`, is the leftmost match: the search returns its value. -/
theorem searchNumSuffix_match_head (c : Char) (hc : c.isDigit = false)
    (d : List Char) (hne : d ≠ []) (hd : ∀ a ∈ d, a.isDigit = true)
    (t : List Char) :
    searchNumSuffix c (d ++ c :: t) = some (digitsVal d) := by
  rcases d with _ | ⟨x, xs⟩
  · exact absurd rfl hne
  have htake := takeWhile_block_append Char.isDigit (x :: xs) hd c hc t
  have hdrop := dropWhile_block_append Char.isDigit (x :: xs) hd c hc t
  rw [List.cons_append] at htake hdrop ⊢
  apply searchNumSuffix_cons_of_some
  unfold matchNumSuffixAt
  rw [htake, hdrop]
  simp

theorem mem_componentStr (o : Option (List Char)) (c : Char)
    (hb : DigitBlock o) (a : Char) (ha : a ∈ componentStr o c) :
    a.isDigit = true ∨ a = c := by
  cases o with
  | none => simp [componentStr] at ha
  | some d =>
    simp only [componentStr, List.mem_append, List.mem_singleton] at ha
    rcases ha with h | h
    · exact Or.inl (hb.2 a h)
    · exact Or.inr h

theorem search_H_grammar (oh om os : Option (List Char))
    (hh : DigitBlock oh) (hm : DigitBlock om) (hs : DigitBlock os) :
    searchNumSuffix 'H' (grammarStr oh om os) = oh.map digitsVal := by
  cases oh with
  | none =>
    have hnm : 'H' ∉ componentStr none 'H' ++ componentStr om 'M' ++ componentStr os 'S' := by
      intro h
      rcases List.mem_append.1 h with h | h
      · rcases List.mem_append.1 h with h | h
        · simp [componentStr] at h
        · rcases mem_componentStr om 'M' hm 'H' h with h | h <;> exact absurd h (by decide)
      · rcases mem_componentStr os 'S' hs 'H' h with h | h <;> exact absurd h (by decide)
    exact searchNumSuffix_none_of_not_mem 'H' _ hnm
  | some d =>
    have heq : grammarStr (some d) om os =
        d ++ 'H' :: (componentStr om 'M' ++ componentStr os 'S') := by
      simp [grammarStr, componentStr]
    rw [heq, searchNumSuffix_match_head 'H' (by decide) d hh.1 hh.2]
    rfl

theorem search_M_grammar (oh om os : Option (List Char))
    (hh : DigitBlock oh) (hm : DigitBlock om) (hs : DigitBlock os) :
    searchNumSuffix 'M' (grammarStr oh om os) = om.map digitsVal := by
  have key : searchNumSuffix 'M' (componentStr om 'M' ++ componentStr os 'S') =
      om.map digitsVal := by
    cases om with
    | none =>
      have hnm : 'M' ∉ componentStr none 'M' ++ componentStr os 'S' := by
        intro h
        rcases List.mem_append.1 h with h | h
        · simp [componentStr] at h
        · rcases mem_componentStr os 'S' hs 'M' h with h | h <;> exact absurd h (by decide)
      exact searchNumSuffix_none_of_not_mem 'M' _ hnm
    | some dm =>
      have heq : componentStr (some dm) 'M' ++ componentStr os 'S' =
          dm ++ 'M' :: componentStr os 'S' := by
        simp [componentStr]
      rw [heq, searchNumSuffix_match_head 'M' (by decide) dm hm.1 hm.2]
      rfl
  cases oh with
  | none =>
    have heq : grammarStr none om os = componentStr om 'M' ++ componentStr os 'S' := by
      simp [grammarStr, componentStr]
    rw [heq, key]
  | some dh =>
    have heq : grammarStr (some dh) om os =
        dh ++ 'H' :: (componentStr om 'M' ++ componentStr os 'S') := by
      simp [grammarStr, componentStr]
    rw [heq, searchNumSuffix_skip_block 'M' dh hh.2 'H' (by decide) (by decide), key]

theorem search_S_grammar (oh om os : Option (List Char))
    (hh : DigitBlock oh) (hm : DigitBlock om) (hs : DigitBlock os) :
    searchNumSuffix 'S' (grammarStr oh om os) = os.map digitsVal := by
  have key : searchNumSuffix 'S' (componentStr os 'S') = os.map digitsVal := by
    cases os with
    | none => rfl
    | some ds =>
      have heq : componentStr (some ds) 'S' = ds ++ 'S' :: [] := by
        simp [componentStr]
      rw [heq, searchNumSuffix_match_head 'S' (by decide) ds hs.1 hs.2]
      rfl
  have key2 : searchNumSuffix 'S' (componentStr om 'M' ++ componentStr os 'S') =
      os.map digitsVal := by
    cases om with
    | none =>
      have heq : componentStr none 'M' ++ componentStr os 'S' = componentStr os 'S' := by
        simp [componentStr]
      rw [heq, key]
    | some dm =>
      have heq : componentStr (some dm) 'M' ++ componentStr os 'S' =
          dm ++ 'M' :: componentStr os 'S' := by
        simp [componentStr]
      rw [heq, searchNumSuffix_skip_block 'S' dm hm.2 'M' (by decide) (by decide), key]
  cases oh with
  | none =>
    have heq : grammarStr none om os = componentStr om 'M' ++ componentStr os 'S' := by
      simp [grammarStr, componentStr]
    rw [heq, key2]
  | some dh =>
    have heq : grammarStr (some dh) om os =
        dh ++ 'H' :: (componentStr om 'M' ++ componentStr os 'S') := by
      simp [grammarStr, componentStr]
    rw [heq, searchNumSuffix_skip_block 'S' dh hh.2 'H' (by decide) (by decide), key2]

/-! ### Claim C1 -/

/-- C1: every duration string of the simplified ISO-8601 grammar (an
optional H-suffixed integer, an optional M-suffixed integer, an optional
S-suffixed integer, in that relative order) parses to
`hours*3600 + minutes*60 + seconds` seconds, each absent component
contributing 0. -/
theorem parse_duration_grammar_spec (oh om os : Option (List Char))
    (hh : DigitBlock oh) (hm : DigitBlock om) (hs : DigitBlock os) :
    parse_duration ⟨grammarStr oh om os⟩ =
      3600 * componentVal oh + 60 * componentVal om + componentVal os := by
  show parse_duration_chars (grammarStr oh om os) = _
  simp only [parse_duration_chars]
  rw [search_H_grammar oh om os hh hm hs, search_M_grammar oh om os hh hm hs,
    search_S_grammar oh om os hh hm hs]
  cases oh <;> cases om <;> cases os <;> rfl

/-- Witness for C1: the grammar string "1H2M3S" parses to 3723 seconds
(and with all components absent resp. only minutes present the theorem
specialises to the other two examples). -/
theorem parse_duration_grammar_spec_witness :
    DigitBlock (some ['1']) ∧ DigitBlock (some ['2']) ∧ DigitBlock (some ['3']) ∧
      parse_duration ⟨grammarStr (some ['1']) (some ['2']) (some ['3'])⟩ = 3723 :=
  ⟨⟨by decide, by decide⟩, ⟨by decide, by decide⟩, ⟨by decide, by decide⟩,
    (parse_duration_grammar_spec (some ['1']) (some ['2']) (some ['3'])
      ⟨by decide, by decide⟩ ⟨by decide, by decide⟩ ⟨by decide, by decide⟩).trans
      (by decide)⟩

/-! ### Claim C9 -/

/-- C9: the duration parser is total and never fails: on every input
string whatsoever its value is produced by three independent substring
searches with absent patterns contributing 0 (no full-string validation,
so no failure branch is ever taken), and in particular a missing leading
"PT" marker changes nothing. -/
theorem parse_duration_total_spec (s : String) :
    parse_duration ⟨'P' :: 'T' :: s.data⟩ = parse_duration s ∧
      parse_duration s =
        3600 * (searchNumSuffix 'H' s.data).getD 0 +
          60 * (searchNumSuffix 'M' s.data).getD 0 +
          (searchNumSuffix 'S' s.data).getD 0 := by
  constructor
  · show parse_duration_chars ('P' :: 'T' :: s.data) = parse_duration_chars s.data
    simp only [parse_duration_chars]
    rw [searchNumSuffix_cons_not_digit 'H' 'P' ('T' :: s.data) (by decide),
      searchNumSuffix_cons_not_digit 'H' 'T' s.data (by decide),
      searchNumSuffix_cons_not_digit 'M' 'P' ('T' :: s.data) (by decide),
      searchNumSuffix_cons_not_digit 'M' 'T' s.data (by decide),
      searchNumSuffix_cons_not_digit 'S' 'P' ('T' :: s.data) (by decide),
      searchNumSuffix_cons_not_digit 'S' 'T' s.data (by decide)]
  · rfl

/-! ### Claim C10 -/

/-- C10: each component is taken from the leftmost occurrence of its
digits+designator pattern, independently of the other components; in a
string with a repeated component, such as "1M2M", the first occurrence
wins (minutes = 1, not 2). -/
theorem leftmost_component_spec (d1 d2 : List Char) (h1 : d1 ≠ [])
    (hd1 : ∀ a ∈ d1, a.isDigit = true) (hd2 : ∀ a ∈ d2, a.isDigit = true) :
    parse_duration ⟨d1 ++ 'M' :: (d2 ++ ['M'])⟩ = 60 * digitsVal d1 ∧
      parse_duration "1M2M" = 60 := by
  constructor
  · show parse_duration_chars (d1 ++ 'M' :: (d2 ++ ['M'])) = _
    have hH : searchNumSuffix 'H' (d1 ++ 'M' :: (d2 ++ ['M'])) = none := by
      apply searchNumSuffix_none_of_not_mem
      intro h
      simp only [List.mem_append, List.mem_cons, List.mem_singleton] at h
      rcases h with h | h | h | h
      · exact absurd (hd1 'H' h) (by decide)
      · exact absurd h (by decide)
      · exact absurd (hd2 'H' h) (by decide)
      · exact absurd h (by decide)
    have hS : searchNumSuffix 'S' (d1 ++ 'M' :: (d2 ++ ['M'])) = none := by
      apply searchNumSuffix_none_of_not_mem
      intro h
      simp only [List.mem_append, List.mem_cons, List.mem_singleton] at h
      rcases h with h | h | h | h
      · exact absurd (hd1 'S' h) (by decide)
      · exact absurd h (by decide)
      · exact absurd (hd2 'S' h) (by decide)
      · exact absurd h (by decide)
    have hM : searchNumSuffix 'M' (d1 ++ 'M' :: (d2 ++ ['M'])) = some (digitsVal d1) :=
      searchNumSuffix_match_head 'M' (by decide) d1 h1 hd1 (d2 ++ ['M'])
    simp only [parse_duration_chars, hH, hM, hS, Option.getD_some, Option.getD_none]
    omega
  · decide

/-- Witness for C10 at `d1 = "1"`, `d2 = "2"`. -/
theorem leftmost_component_spec_witness :
    ['1'] ≠ ([] : List Char) ∧
      parse_duration ⟨['1'] ++ 'M' :: (['2'] ++ ['M'])⟩ = 60 * digitsVal ['1'] :=
  ⟨by decide,
    (leftmost_component_spec ['1'] ['2'] (by decide) (by decide) (by decide)).1⟩

/-! ### Claim C3 -/

/-- C3: for every pair of input sequences, assembly produces exactly
`min (len details) (len ids)` items, the i-th pairing the i-th detail
with the i-th id: title from the detail's snippet, url
`https://www.youtube.com/watch?v=<id>`, duration the parse of the
detail's contentDetails duration. -/
theorem assemble_items_spec (video_details : List Detail) (video_ids : List String) :
    (assemble video_details video_ids).length =
        min video_details.length video_ids.length ∧
      ∀ i (h1 : i < video_details.length) (h2 : i < video_ids.length),
        (assemble video_details video_ids).get
            ⟨i, by simp only [assemble, List.length_map, List.length_zip]; exact lt_min h1 h2⟩ =
          { title := (video_details.get ⟨i, h1⟩).snippet.title
            url := "https://www.youtube.com/watch?v=" ++ video_ids.get ⟨i, h2⟩
            duration :=
              parse_duration (video_details.get ⟨i, h1⟩).contentDetails.duration } := by
  constructor
  · simp [assemble, List.length_zip]
  · intro i h1 h2
    simp only [assemble, List.get_eq_getElem, List.getElem_map, List.getElem_zip]
    rfl

/-- Witness for C3: three details zipped with two ids yield two items,
and item 0 is the pairing of detail 0 with id 0. -/
theorem assemble_items_spec_witness :
    (assemble scenarioDetails ["v1", "v2"]).length = 2 ∧
      (assemble scenarioDetails ["v1", "v2"]).get ⟨0, by decide⟩ =
        { title := "T1", url := "https://www.youtube.com/watch?v=v1",
          duration := 3600 } := by
  have h := assemble_items_spec scenarioDetails ["v1", "v2"]
  refine ⟨h.1.trans (by decide), ?_⟩
  exact (h.2 0 (by decide) (by decide)).trans (by decide)

/-! ### Claim C4 -/

/-- C4: `get_total_duration` is the elementwise sum of the items'
durations with zero as additive identity; the empty sequence yields zero
and a two-element sequence yields the sum of its two durations. -/
theorem get_total_duration_spec :
    (∀ items : List Item, get_total_duration items = (items.map Item.duration).sum) ∧
      get_total_duration [] = 0 ∧
      ∀ i1 i2 : Item, get_total_duration [i1, i2] = i1.duration + i2.duration := by
  refine ⟨fun items => ?_, rfl, fun i1 i2 => ?_⟩
  · rw [List.sum_eq_foldl]
    rfl
  · simp [get_total_duration]

/-! ### Claim C5 -/

/-- C5: the include-total-duration branch appends exactly one synthetic
row at the end, with title "Total Duration", empty url, and duration the
total of the rows present before the append (the total never includes
itself); the pre-existing rows are unchanged; in the §8 scenario
(PT1H, PT30M, PT45S) the appended duration renders as `1:30:45`. -/
theorem append_total_row_spec :
    (∀ items : List Item,
      (append_total_row items).length = items.length + 1 ∧
        (append_total_row items).take items.length = items ∧
        (append_total_row items).getLast? =
          some { title := "Total Duration", url := ""
                 duration :=
                   get_total_duration ((append_total_row items).take items.length) }) ∧
      strDelta (get_total_duration (append_total_row scenarioItems).dropLast) = "1:30:45" := by
  constructor
  · intro items
    have htake : (append_total_row items).take items.length = items :=
      List.take_left items _
    refine ⟨by simp [append_total_row], htake, ?_⟩
    rw [htake]
    exact List.getLast?_concat items
  · decide

/-! ### Claim C2 -/

theorem get_video_ids_loop_chain (api : Option String → Page) (tok : Option String)
    (pages : List Page) (hchain : PageChain api tok pages) :
    ∀ fuel, pages.length ≤ fuel → ∀ acc : List String,
      get_video_ids_loop api fuel tok acc =
        some (acc ++ (pages.map pageVideoIds).flatten, pages.length) := by
  induction hchain with
  | last tok h =>
    intro fuel hfuel acc
    cases fuel with
    | zero => simp at hfuel
    | succ fuel' =>
      simp only [get_video_ids_loop, h, tokenFalsy]
      simp
  | step tok t rest h ht hrest ih =>
    intro fuel hfuel acc
    cases fuel with
    | zero => simp at hfuel
    | succ fuel' =>
      have hfalsy : tokenFalsy (some t) = false := by
        simp only [tokenFalsy]
        rwa [Bool.eq_false_iff, ne_eq, String.isEmpty_iff]
      have hrec := ih fuel' (by simpa using Nat.lt_succ_iff.mp (Nat.lt_of_lt_of_le (by simp) hfuel))
        (acc ++ pageVideoIds (api tok))
      simp only [get_video_ids_loop, h, hfalsy, hrec]
      simp [List.append_assoc]

/-- C2: whenever the API delivers a finite chain of pages, each but the
last carrying a continuation token and the last carrying none,
`get_video_ids` terminates after requesting exactly those pages in order
(the request count equals the number of pages) and returns the
concatenation of the pages' video ids in the order delivered, with no
reordering, deduplication, or merging. -/
theorem get_video_ids_spec (api : Option String → Page) (pages : List Page)
    (fuel : Nat) (hchain : PageChain api none pages)
    (hfuel : pages.length ≤ fuel) :
    get_video_ids api fuel = some ((pages.map pageVideoIds).flatten, pages.length) := by
  simpa using get_video_ids_loop_chain api none pages hchain fuel hfuel []

/-- Witness for C2: the concrete two-page environment yields
`["v1", "v2", "v3"]` after exactly 2 requests. -/
theorem get_video_ids_spec_witness :
    PageChain twoPageApi none [twoPageApi none, twoPageApi (some "tok2")] ∧
      get_video_ids twoPageApi 2 = some (["v1", "v2", "v3"], 2) := by
  have hchain : PageChain twoPageApi none [twoPageApi none, twoPageApi (some "tok2")] := by
    refine PageChain.step none "tok2" _ (by decide) (by decide) ?_
    exact PageChain.last (some "tok2") (by decide)
  exact ⟨hchain, (get_video_ids_spec twoPageApi _ 2 hchain (by decide)).trans (by decide)⟩

/-! ### Claim C6 -/

theorem create_markdown_table_foldl (l : List Item) : ∀ init : String,
    l.foldl (fun table item => table ++ mdRow item) init =
      init ++ String.join (l.map mdRow) := by
  induction l with
  | nil =>
    intro init
    apply String.ext
    simp [String.data_append, String.join_eq]
  | cons x xs ih =>
    intro init
    simp only [List.foldl_cons, List.map_cons]
    rw [ih (init ++ mdRow x)]
    apply String.ext
    simp [String.data_append, String.join_eq]

/-- C6: the Markdown renderer produces exactly the header line, the
alignment line, then one row `| [<title>](<url>) | <duration> |` per item
in sequence order, with title, url and the duration's default string form
inserted verbatim; a row with empty url renders as a bare link with no
target; in the §8 scenario the durations render as 1:00:00, 0:30:00 and
0:00:45. -/
theorem create_markdown_table_spec (items : List Item) :
    create_markdown_table items =
        "| Title | Duration |\n| :--- | :---: |\n" ++
          String.join (items.map (fun item =>
            "| [" ++ item.title ++ "](" ++ item.url ++ ") | " ++
              strDelta item.duration ++ " |\n")) ∧
      create_markdown_table scenarioItems =
        "| Title | Duration |\n| :--- | :---: |\n| [T1](https://www.youtube.com/watch?v=v1) | 1:00:00 |\n| [T2](https://www.youtube.com/watch?v=v2) | 0:30:00 |\n| [T3](https://www.youtube.com/watch?v=v3) | 0:00:45 |\n" ∧
      mdRow { title := "Total Duration", url := "", duration := 5445 } =
        "| [Total Duration]() | 1:30:45 |\n" := by
  refine ⟨create_markdown_table_foldl items _, by decide, by decide⟩

/-! ### Claim C7 -/

/-- C7: CSV output is the exact header line `title,url,duration` followed
by one line per item in order, of the form `"<title>",<url>,<duration>`:
only the title is wrapped in double quotes, and title, url and duration
text are inserted with no escaping; a title containing a comma, `A, B`,
yields the line `"A, B",<url>,<duration>` with the comma unescaped. -/
theorem csv_output_spec (items : List Item) :
    (csv_lines items).length = items.length + 1 ∧
      (csv_lines items).head? = some "title,url,duration" ∧
      (∀ i (h : i < items.length),
        (csv_lines items).get ⟨i + 1, by simp [csv_lines]; omega⟩ =
          "\"" ++ (items.get ⟨i, h⟩).title ++ "\"," ++ (items.get ⟨i, h⟩).url ++
            "," ++ strDelta (items.get ⟨i, h⟩).duration) ∧
      csvLine { title := "A, B", url := "https://www.youtube.com/watch?v=v1",
                duration := 3600 } =
        "\"A, B\",https://www.youtube.com/watch?v=v1,1:00:00" := by
  refine ⟨by simp [csv_lines], rfl, ?_, by decide⟩
  intro i h
  simp only [csv_lines, List.get_eq_getElem, List.getElem_cons_succ, List.getElem_map]
  rfl

/-- Witness for C7: the second CSV line of the §8 scenario is the first
item's quoted-title line. -/
theorem csv_output_spec_witness :
    (0 : Nat) < scenarioItems.length ∧
      (csv_lines scenarioItems).get ⟨1, by decide⟩ =
        "\"T1\",https://www.youtube.com/watch?v=v1,1:00:00" := by
  refine ⟨by decide, ?_⟩
  exact ((csv_output_spec scenarioItems).2.2.1 0 (by decide)).trans (by decide)

/-! ### Claim C8 -/

theorem digitChar_isDigit : ∀ n, n < 10 → (digitChar n).isDigit = true := by decide

theorem digitChar_toNat : ∀ n, n < 10 → (digitChar n).toNat = 48 + n := by decide

theorem digitsVal_append_single (l : List Char) (c : Char) :
    digitsVal (l ++ [c]) = 10 * digitsVal l + (c.toNat - 48) := by
  unfold digitsVal
  rw [List.foldl_append]
  rfl

theorem toDecimalAux_spec : ∀ fuel n, n < fuel →
    toDecimalAux fuel n ≠ [] ∧ (∀ c ∈ toDecimalAux fuel n, c.isDigit = true) ∧
      digitsVal (toDecimalAux fuel n) = n := by
  intro fuel
  induction fuel with
  | zero => intro n h; omega
  | succ fuel ih =>
    intro n h
    by_cases h10 : n < 10
    · simp only [toDecimalAux, if_pos h10]
      refine ⟨by simp, ?_, ?_⟩
      · intro c hc
        simp only [List.mem_singleton] at hc
        subst hc
        exact digitChar_isDigit n h10
      · show digitsVal [digitChar n] = n
        simp [digitsVal, digitChar_toNat n h10]
    · simp only [toDecimalAux, if_neg h10]
      have hlt : n / 10 < fuel := by omega
      obtain ⟨hne, hdig, hval⟩ := ih (n / 10) hlt
      refine ⟨by simp, ?_, ?_⟩
      · intro c hc
        rcases List.mem_append.1 hc with hc | hc
        · exact hdig c hc
        · simp only [List.mem_singleton] at hc
          subst hc
          exact digitChar_isDigit _ (by omega)
      · rw [digitsVal_append_single, hval, digitChar_toNat _ (by omega)]
        omega

theorem toDecimal_ne_nil (n : Nat) : toDecimal n ≠ [] :=
  (toDecimalAux_spec (n + 1) n (by omega)).1

theorem toDecimal_digits (n : Nat) : ∀ c ∈ toDecimal n, c.isDigit = true :=
  (toDecimalAux_spec (n + 1) n (by omega)).2.1

theorem digitsVal_toDecimal (n : Nat) : digitsVal (toDecimal n) = n :=
  (toDecimalAux_spec (n + 1) n (by omega)).2.2

theorem twoDigit_ne_nil (n : Nat) : twoDigit n ≠ [] := by
  unfold twoDigit
  split
  · simp
  · exact toDecimal_ne_nil n

theorem twoDigit_digits (n : Nat) : ∀ c ∈ twoDigit n, c.isDigit = true := by
  unfold twoDigit
  split
  · intro c hc
    rcases List.mem_cons.1 hc with hc | hc
    · subst hc; decide
    · exact toDecimal_digits n c hc
  · exact toDecimal_digits n

theorem digitsVal_twoDigit (n : Nat) : digitsVal (twoDigit n) = n := by
  unfold twoDigit
  split
  · show digitsVal ('0' :: toDecimal n) = n
    have h0 : digitsVal ('0' :: toDecimal n) = digitsVal (toDecimal n) := rfl
    rw [h0, digitsVal_toDecimal]
  · exact digitsVal_toDecimal n

theorem readNum_build (d : List Char) (hne : d ≠ [])
    (hd : ∀ a ∈ d, a.isDigit = true) (ch : Char) (hch : ch.isDigit = false)
    (t : List Char) :
    readNum (d ++ ch :: t) = some (digitsVal d, ch :: t) := by
  unfold readNum
  rw [takeWhile_block_append Char.isDigit d hd ch hch t,
    dropWhile_block_append Char.isDigit d hd ch hch t]
  rcases d with _ | ⟨x, xs⟩
  · exact absurd rfl hne
  · rfl

theorem readNum_all (d : List Char) (hne : d ≠ [])
    (hd : ∀ a ∈ d, a.isDigit = true) :
    readNum d = some (digitsVal d, []) := by
  unfold readNum
  rw [List.takeWhile_eq_self_iff.mpr hd, List.dropWhile_eq_nil_iff.mpr hd]
  rcases d with _ | ⟨x, xs⟩
  · exact absurd rfl hne
  · rfl

theorem parseHMMSS_chars_build (dh dm ds : List Char)
    (h1 : dh ≠ []) (hd1 : ∀ a ∈ dh, a.isDigit = true)
    (h2 : dm ≠ []) (hd2 : ∀ a ∈ dm, a.isDigit = true)
    (h3 : ds ≠ []) (hd3 : ∀ a ∈ ds, a.isDigit = true) :
    parseHMMSS_chars (dh ++ ':' :: (dm ++ ':' :: ds)) =
      some (3600 * digitsVal dh + 60 * digitsVal dm + digitsVal ds) := by
  unfold parseHMMSS_chars
  rw [readNum_build dh h1 hd1 ':' (by decide) (dm ++ ':' :: ds)]
  simp only [Option.some_bind, expectColon]
  rw [readNum_build dm h2 hd2 ':' (by decide) ds]
  simp only [Option.some_bind, expectColon]
  rw [readNum_all ds h3 hd3]
  simp

theorem strDelta_chars_lt_day (t : Nat) (ht : t < 86400) :
    strDelta_chars t =
      toDecimal (t / 3600) ++ ':' ::
        (twoDigit (t % 3600 / 60) ++ ':' :: twoDigit (t % 60)) := by
  have hd0 : t / 86400 = 0 := Nat.div_eq_of_lt ht
  have hm : t % 86400 = t := Nat.mod_eq_of_lt ht
  simp only [strDelta_chars, hd0, hm, if_pos rfl, if_true]

theorem strDelta_roundtrip_chars (t : Nat) (ht : t < 86400) :
    parseHMMSS_chars (strDelta_chars t) = some t := by
  rw [strDelta_chars_lt_day t ht]
  rw [parseHMMSS_chars_build (toDecimal (t / 3600)) (twoDigit (t % 3600 / 60))
    (twoDigit (t % 60)) (toDecimal_ne_nil _) (toDecimal_digits _)
    (twoDigit_ne_nil _) (twoDigit_digits _) (twoDigit_ne_nil _) (twoDigit_digits _)]
  rw [digitsVal_toDecimal, digitsVal_twoDigit, digitsVal_twoDigit]
  congr 1
  omega

/-- C8 counterexample: the grammar string "24H" parses to 86400 seconds,
which `str(timedelta)` renders as `1 day, 0:00:00` — not an `H:MM:SS`
field — so re-parsing the rendered field does not recover the 86400
seconds: the round-trip fails as stated. -/
theorem roundtrip_counterexample :
    parse_duration "24H" = 86400 ∧
      strDelta (parse_duration "24H") = "1 day, 0:00:00" ∧
      parseHMMSS (strDelta (parse_duration "24H")) = none ∧
      parseHMMSS (strDelta (parse_duration "24H")) ≠ some (parse_duration "24H") :=
  ⟨by decide, by decide, by decide, by decide⟩

/-- C8 (amended): for every source duration string whose parsed value is
below one day (86400 seconds), rendering the parsed duration in the
renderer's fixed format and re-parsing the rendered field as `H:MM:SS`
recovers the same total number of seconds; at or above one day the
rendering carries a `D day(s), ` prefix and is no longer `H:MM:SS`. -/
theorem roundtrip_amended (s : String) (h : parse_duration s < 86400) :
    parseHMMSS (strDelta (parse_duration s)) = some (parse_duration s) :=
  strDelta_roundtrip_chars (parse_duration s) h

/-- Witness for amended C8 at the source string "1H2M3S". -/
theorem roundtrip_amended_witness :
    parse_duration "1H2M3S" < 86400 ∧
      parseHMMSS (strDelta (parse_duration "1H2M3S")) = some (parse_duration "1H2M3S") :=
  ⟨by decide, roundtrip_amended "1H2M3S" (by decide)⟩


end YtPlaylistInfo
